import Mathlib

/-! Graceful shutdown (week_01/graceful_shutdown)

A shallow embedding of `service/shutdown.go` and of the two callbacks of
`main.go`, followed by the properties of the shutdown orchestration.

Conventions of the embedding.

* Instants are natural numbers of nanoseconds; `time.Duration` is an integer
  number of nanoseconds.  A sleep, a timer or a timeout of a non-positive
  duration elapses at once, as in the Go runtime, hence `Int.toNat`.
* A goroutine is embedded by the timed trace of what it does.  The time that the
  runtime adds on top of the durations written in the program (statement
  execution, timer and sleep latency) is not fixed by the source; it is a
  parameter, `Env`, over which the theorems quantify.
* A callback is arbitrary user code: it is a function from the instant of the
  call and the context it receives to the time it takes to return, if it returns.
* Pointers: a `*Server` of the Go code is the position of the server in
  `App.servers`; `http.Server.Handler` aliases `Server.mux`.
-/

namespace http

/-- The request line of an incoming request. -/
structure Request where
  Method : String
  Path : String
deriving DecidableEq

/-- The status code `http.StatusServiceUnavailable`. -/
def StatusServiceUnavailable : Nat := 503

/-- The multiplexer `http.ServeMux`: registered patterns, each with the identity of its
handler. -/
structure ServeMux where
  entries : List (String × Nat)
deriving DecidableEq

/-- The constructor `http.NewServeMux()`. -/
def NewServeMux : ServeMux := ⟨[]⟩

/-- The registration `mux.Handle(pattern, handler)`. -/
def ServeMux.Handle (m : ServeMux) (pattern : String) (handler : Nat) : ServeMux :=
  ⟨m.entries ++ [(pattern, handler)]⟩

/-- The fields of `http.Server` set by `NewServer`; `Handler` is the pointer to the server's
`serverMux` and is read through `Server.mux`. -/
structure Server where
  Addr : String
deriving DecidableEq

end http

namespace service

/-- The constant `time.Second`: a `time.Duration`, an integer number of nanoseconds. -/
def Second : Int := 1000000000

/-! ## Server and serverMux -/

/-- What a call of `ServeHTTP` does with the response writer and the wrapped multiplexer. -/
inductive Effect
  | WriteHeader (statusCode : Nat)
  | Write (body : String)
  | ServeMuxServeHTTP (mux : http.ServeMux) (r : http.Request)
deriving DecidableEq

/-- The struct `serverMux`: the reject flag and the embedded `*http.ServeMux`. -/
structure serverMux where
  reject : Bool
  ServeMux : http.ServeMux
deriving DecidableEq

/-- The method `(*serverMux).ServeHTTP`. -/
def serverMux.ServeHTTP (s : serverMux) (r : http.Request) : List Effect :=
  if s.reject then
    [Effect.WriteHeader http.StatusServiceUnavailable, Effect.Write "服务已关闭"]
  else
    [Effect.ServeMuxServeHTTP s.ServeMux r]

/-- The struct `Server`. -/
structure Server where
  srv : http.Server
  name : String
  mux : serverMux
deriving DecidableEq

/-- The constructor `NewServer`. -/
def NewServer (name : String) (addr : String) : Server :=
  Server.mk (http.Server.mk addr) name (serverMux.mk false http.NewServeMux)

/-- The method `(*Server).Handle`. -/
def Server.Handle (s : Server) (pattern : String) (handler : Nat) : Server :=
  { s with mux := { s.mux with ServeMux := s.mux.ServeMux.Handle pattern handler } }

/-- The method `(*Server).rejectReq`. -/
def Server.rejectReq (s : Server) : Server :=
  { s with mux := { s.mux with reject := true } }

/-- A call made on a server between its construction and a request: the two methods of
`Server` that write to it. -/
inductive ServerCall
  | Handle (pattern : String) (handler : Nat)
  | rejectReq
deriving DecidableEq

/-- The server after one call. -/
def Server.call (s : Server) : ServerCall → Server
  | ServerCall.Handle pattern handler => s.Handle pattern handler
  | ServerCall.rejectReq => s.rejectReq

/-- The server after a sequence of calls, oldest first. -/
def Server.calls (s : Server) (cs : List ServerCall) : Server :=
  cs.foldl Server.call s

/-- The handler that `http.Server` invokes for a request: `srv.Handler`, the server's
`serverMux`. -/
def Server.serve (s : Server) (r : http.Request) : List Effect :=
  s.mux.ServeHTTP r

/-! ## Contexts -/

/-- The two errors of package `context`. -/
inductive ctxErr
  | Canceled
  | DeadlineExceeded
deriving DecidableEq

/-- A `context.Context`: its deadline, if any, and the instant at which one of the cancel
functions above it is called, if any is. -/
structure Context where
  deadline : Option Nat
  cancelAt : Option Nat
deriving DecidableEq

/-- The context `context.Background()`. -/
def Background : Context := ⟨none, none⟩

/-- The earlier of two optional instants. -/
def earlier : Option Nat → Option Nat → Option Nat
  | none, b => b
  | some a, none => some a
  | some a, some b => some (min a b)

/-- The call `context.WithTimeout(parent, d)` made at `now`.  The cancel function it
returns is only ever deferred by the callers, so the new context is not cancelled on its
own account. -/
def WithTimeout (parent : Context) (now : Nat) (d : Int) : Context :=
  ⟨earlier parent.deadline (some (now + d.toNat)), parent.cancelAt⟩

/-- The instant at which the channel `ctx.Done()` is closed, if ever. -/
def Context.Done (c : Context) : Option Nat :=
  earlier c.deadline c.cancelAt

/-- The value of `ctx.Err()` at `now`. -/
def Context.Err (c : Context) (now : Nat) : Option ctxErr :=
  match c.cancelAt, c.deadline with
  | some k, some d =>
    if k < d then (if k ≤ now then some ctxErr.Canceled else none)
    else if d ≤ now then some ctxErr.DeadlineExceeded else none
  | some k, none => if k ≤ now then some ctxErr.Canceled else none
  | none, some d => if d ≤ now then some ctxErr.DeadlineExceeded else none
  | none, none => none

/-! ## App -/

/-- The type `ShutdownCallback`: called at `now` with `ctx`, the callback returns after
`some d` nanoseconds, or never (`none`). -/
abbrev ShutdownCallback := Nat → Context → Option Nat

/-- The struct `App`. -/
structure App where
  servers : List Server
  shutdownTimeout : Int
  waitTime : Int
  cbTimeout : Int
  cbs : List ShutdownCallback

/-- The type `Option` of the Go package (named `AppOption` here, `Option` being taken). -/
abbrev AppOption := App → App

/-- The option `WithShutdownCallbacks`. -/
def WithShutdownCallbacks (cbs : List ShutdownCallback) : AppOption :=
  fun app => { app with cbs := cbs }

/-- The constructor `NewApp`. -/
def NewApp (servers : List Server) (opts : List AppOption) : App :=
  let app : App := App.mk [] (30 * Second) (10 * Second) (3 * Second) []
  let app := servers.foldl (fun a srv => { a with servers := a.servers ++ [srv] }) app
  opts.foldl (fun a opt => opt a) app

/-! ## The timed semantics of a shutdown -/

/-- What the goroutines of a shutdown do, by position of the server in `app.servers` and of
the callback in `app.cbs`. -/
inductive Event
  /-- The call `srv.rejectReq()` of the server loop. -/
  | rejectReq (srv : Nat)
  /-- The timer set by `time.AfterFunc(app.waitTime, srv.Close)` fires: `srv.Close()` begins. -/
  | Close (srv : Nat)
  /-- The callback phase begins: `log.Println("开始执行自定义回调")`. -/
  | callbacks
  /-- The goroutine of a callback starts: `cb(ctx2)` is called. -/
  | launch (cb : Nat)
  /-- The call `cb(ctx2)` has returned and the deferred `wg.Done()` runs. -/
  | Done (cb : Nat)
  /-- The call `wg.Wait()` returns. -/
  | Wait
  /-- The call `app.close()` is made. -/
  | close
  /-- The call `os.Exit(code)` is made. -/
  | Exit (code : Nat)
deriving DecidableEq

/-- A timed trace: each event with the instant at which it happens, in program order. -/
abbrev Trace := List (Nat × Event)

/-- The time the runtime adds to the durations written in the program. -/
structure Env where
  /-- Duration from the `rejectReq` of iteration `i` of the server loop to the next
  iteration. -/
  loopCost : Nat → Nat
  /-- Lateness of the timer set in iteration `i` of the server loop. -/
  timerLag : Nat → Nat
  /-- Lateness of the first (`0`) and of the second (`1`) `time.Sleep` of `shutdown`. -/
  sleepLag : Nat → Nat
  /-- Duration of iteration `i` of the callback loop. -/
  launchCost : Nat → Nat

/-- The sum of `n` consecutive costs, from index `i` on. -/
def costFrom (f : Nat → Nat) : Nat → Nat → Nat
  | _, 0 => 0
  | i, n + 1 => f i + costFrom f (i + 1) n

/-- The time the runtime adds to a whole run of `shutdown` over `servers` servers and `cbs`
callbacks. -/
def Env.slack (env : Env) (servers : Nat) (cbs : Nat) : Nat :=
  costFrom env.loopCost 0 servers + env.sleepLag 0 + env.sleepLag 1 +
    costFrom env.launchCost 0 cbs

/-- The runtime that adds no time at all. -/
def Env.ideal : Env := ⟨fun _ => 0, fun _ => 0, fun _ => 0, fun _ => 0⟩

/-- The server loop of `shutdown`, from iteration `i` on, entered at `now`: the servers
after it, the instant at which it ends and its trace. -/
def rejectLoop (env : Env) (waitTime : Int) :
    Nat → Nat → List Server → List Server × Nat × Trace
  | _, now, [] => ([], now, [])
  | i, now, srv :: rest =>
    let r := rejectLoop env waitTime (i + 1) (now + env.loopCost i) rest
    (srv.rejectReq :: r.1, r.2.1,
      (now, Event.rejectReq i) ::
        (now + waitTime.toNat + env.timerLag i, Event.Close i) :: r.2.2)

/-- The callback loop of `shutdown`, from iteration `i` on, entered at `now`: the instant at
which it ends, the instant of the `wg.Done()` of each goroutine it started (`none` when the
callback never returns) and its trace. -/
def launchLoop (env : Env) (ctx2 : Context) :
    Nat → Nat → List ShutdownCallback → Nat × List (Option Nat) × Trace
  | _, now, [] => (now, [], [])
  | i, now, cb :: rest =>
    let r := launchLoop env ctx2 (i + 1) (now + env.launchCost i) rest
    match cb now ctx2 with
    | none => (r.1, none :: r.2.1, (now, Event.launch i) :: r.2.2)
    | some d =>
      (r.1, some (now + d) :: r.2.1,
        (now, Event.launch i) :: (now + d, Event.Done i) :: r.2.2)

/-- The call `wg.Wait()` made at `now`, every `wg.Add(1)` having been made: it returns once
every goroutine has called `wg.Done()`, and never if one of them never does. -/
def wgWait (now : Nat) : List (Option Nat) → Option Nat
  | [] => some now
  | none :: _ => none
  | some t :: rest => wgWait (max now t) rest

/-- The method `(*App).close`, called at `now`. -/
def App.close (_app : App) (now : Nat) : Trace :=
  [(now, Event.Exit 130)]

/-- The outcome of `shutdown`: the servers as it leaves them and its trace. -/
structure Run where
  servers : List Server
  trace : Trace

/-- The method `(*App).shutdown`, called with `ctx` at `now`: what it does when nothing else
ends the process before.  The four clock readings are the end of the server loop, of
`time.Sleep(app.waitTime)`, of `time.Sleep(1 * time.Second)`, and of `wg.Wait()`. -/
def App.shutdown (app : App) (env : Env) (ctx : Context) (now : Nat) : Run :=
  let l := rejectLoop env app.waitTime 0 now app.servers
  let t1 := l.2.1 + app.waitTime.toNat + env.sleepLag 0
  let t2 := t1 + (1 * Second).toNat + env.sleepLag 1
  let ctx2 := WithTimeout ctx t2 app.cbTimeout
  let c := launchLoop env ctx2 0 t2 app.cbs
  match wgWait c.1 c.2.1 with
  | none => ⟨l.1, l.2.2 ++ (t2, Event.callbacks) :: c.2.2⟩
  | some t3 =>
    ⟨l.1, l.2.2 ++ (t2, Event.callbacks) :: c.2.2 ++
      (t3, Event.Wait) :: (t3, Event.close) :: app.close t3⟩

/-- The first `os.Exit` of a trace: the instant and the code. -/
def exitOf : Trace → Option (Nat × Nat)
  | [] => none
  | (t, Event.Exit code) :: _ => some (t, code)
  | _ :: rest => exitOf rest

/-- How a call of `StartAndServe` ends. -/
inductive Outcome
  /-- The process is terminated by `os.Exit(code)` at `time`. -/
  | Exit (code : Nat) (time : Nat)
  /-- The call returns to its caller at `time`. -/
  | returned (time : Nat)
  /-- The call waits for ever. -/
  | blocked
deriving DecidableEq

/-- The outcomes that come first among timed candidates: all those of the least instant
(which one of several simultaneous ones happens is up to the scheduler); waiting for ever
when there is no candidate. -/
def firstOf (cands : List (Nat × Outcome)) : List Outcome :=
  match cands with
  | [] => [Outcome.blocked]
  | _ => (cands.filter (fun c => cands.all (fun c2 => decide (c.1 ≤ c2.1)))).map Prod.snd

/-- The method `(*App).StartAndServe`.  `first` is the instant of the first signal on `done`,
if any, and `second` the delay from it to the next signal, if any.  The goroutines started
for `srv.Start()` only serve and log.  After the first signal three things run side by
side: the case `<-done` of the inner select, its case `<-ctx.Done()`, and the goroutine
`app.shutdown(ctx)`, whose `os.Exit` ends the process as well.  A case of the select and the
`os.Exit` it leads to are one instant. -/
def App.StartAndServe (app : App) (env : Env) (first : Option Nat) (second : Option Nat) :
    List Outcome :=
  match first with
  | none => [Outcome.blocked]
  | some now =>
    let ctx := WithTimeout Background now app.shutdownTimeout
    let run := app.shutdown env ctx now
    let caseSignal := second.toList.map (fun g => (now + g, Outcome.Exit 127 (now + g)))
    let caseDone := ctx.Done.toList.map (fun d =>
      (d, if ctx.Err d = some ctxErr.DeadlineExceeded then Outcome.Exit 1 d
          else Outcome.returned d))
    let sequencer := (exitOf run.trace).toList.map (fun e => (e.1, Outcome.Exit e.2 e.1))
    firstOf (caseSignal ++ caseDone ++ sequencer)

end service

/-! ## main.go -/

namespace main

open service

/-- The callback `StoreCacheToDBCallback`: the first of `ctx.Done()` and of five seconds of
work. -/
def StoreCacheToDBCallback : ShutdownCallback := fun now ctx =>
  match ctx.Done with
  | none => some (5 * Second).toNat
  | some d => some (min (5 * Second).toNat (d - now))

/-- The callback `SecondCallback`: the first of `ctx.Done()` and of two seconds of work. -/
def SecondCallback : ShutdownCallback := fun now ctx =>
  match ctx.Done with
  | none => some (2 * Second).toNat
  | some d => some (min (2 * Second).toNat (d - now))

/-- The application built by `main`. -/
def app : App :=
  let s1 := (NewServer "business" "localhost:8080").Handle "/" 0
  let s2 := NewServer "admin" "localhost:8081"
  NewApp [s1, s2] [WithShutdownCallbacks [StoreCacheToDBCallback, SecondCallback]]

end main

/-! ## Inputs of the examples -/

namespace service

/-- A callback that never returns and never looks at its context. -/
def neverReturns : ShutdownCallback := fun _ _ => none

/-- A callback that works for `d` nanoseconds and never looks at its context. -/
def ignoresContext (d : Nat) : ShutdownCallback := fun _ _ => some d

/-- The context that `StartAndServe` hands to `shutdown` when the first signal comes at
instant `0` and `shutdownTimeout` has its default. -/
def ctx30 : Context := WithTimeout Background 0 (30 * Second)

/-- A runtime that takes one nanosecond for an iteration of the server loop and no other
time. -/
def Env.tick : Env := ⟨fun _ => 1, fun _ => 0, fun _ => 0, fun _ => 0⟩

/-- The default application with one callback that ignores its context and returns after
exactly the 3 s of `cbTimeout`. -/
def appExact : App :=
  NewApp [] [WithShutdownCallbacks [ignoresContext 3000000000]]

/-- The two servers of `main.go`, no callback, and a `waitTime` of zero. -/
def appNoWait : App :=
  { NewApp [NewServer "business" "localhost:8080", NewServer "admin" "localhost:8081"] [] with
    waitTime := 0 }

/-- The application of `main.go` with a `shutdownTimeout` of 5 s, shorter than the 11 s its
drain takes. -/
def appShort : App :=
  { main.app with shutdownTimeout := 5 * Second }

/-- The application of `main.go` with a `shutdownTimeout` of 12 s: past the 11 s of its
drain, short of the 14 s the whole sequence needs. -/
def appMid : App :=
  { main.app with shutdownTimeout := 12 * Second }

end service

/-! ## Properties -/

namespace service

/-! ### Servers -/

theorem Server.calls_reject (s : Server) (cs : List ServerCall) :
    (s.calls cs).mux.reject = (s.mux.reject || decide (ServerCall.rejectReq ∈ cs)) := by
  induction cs generalizing s with
  | nil => simp [Server.calls]
  | cons c cs ih =>
    have h := ih (s.call c)
    simp only [Server.calls, List.foldl_cons] at h ⊢
    rw [h]
    cases c with
    | Handle p k => simp [Server.call, Server.Handle]
    | rejectReq => simp [Server.call, Server.rejectReq]

/-- C1. Whatever calls of `Handle` and `rejectReq` a server built by `NewServer` has
received, a request is answered by status 503 and the body of the closed service, and is
not handed to the wrapped `ServeMux`, as soon as `rejectReq` is among the calls; when it is
not (the flag starts false), the only thing that happens is the call of the wrapped
`ServeMux` on the request. -/
theorem serverMux_ServeHTTP_reject (name addr : String) (cs : List ServerCall)
    (r : http.Request) :
    ((NewServer name addr).calls cs).serve r =
      if ServerCall.rejectReq ∈ cs then
        [Effect.WriteHeader 503, Effect.Write "服务已关闭"]
      else
        [Effect.ServeMuxServeHTTP ((NewServer name addr).calls cs).mux.ServeMux r] := by
  unfold Server.serve serverMux.ServeHTTP
  rw [Server.calls_reject]
  by_cases h : ServerCall.rejectReq ∈ cs <;>
    simp [h, NewServer, http.StatusServiceUnavailable]

/-! ### NewApp -/

theorem foldl_servers (servers : List Server) (a : App) :
    servers.foldl (fun a srv => { a with servers := a.servers ++ [srv] }) a =
      { a with servers := a.servers ++ servers } := by
  induction servers generalizing a with
  | nil => simp
  | cons s rest ih => simp [ih]

theorem foldl_WithShutdownCallbacks (cbss : List (List ShutdownCallback)) (a : App) :
    ((cbss.map WithShutdownCallbacks).foldl (fun a opt => opt a) a).servers = a.servers ∧
    ((cbss.map WithShutdownCallbacks).foldl (fun a opt => opt a) a).shutdownTimeout =
      a.shutdownTimeout ∧
    ((cbss.map WithShutdownCallbacks).foldl (fun a opt => opt a) a).waitTime = a.waitTime ∧
    ((cbss.map WithShutdownCallbacks).foldl (fun a opt => opt a) a).cbTimeout = a.cbTimeout := by
  induction cbss generalizing a with
  | nil => simp
  | cons c rest ih =>
    simp only [List.map_cons, List.foldl_cons]
    have h := ih (WithShutdownCallbacks c a)
    simpa [WithShutdownCallbacks] using h

/-- C10. For every list of servers and every list of options all made by
`WithShutdownCallbacks`, `NewApp` returns an application whose `shutdownTimeout` is 30 s,
`waitTime` 10 s and `cbTimeout` 3 s (in nanoseconds) and whose servers are the given list,
in order; and `WithShutdownCallbacks` applied to any application leaves its three durations
and its servers as they are. -/
theorem NewApp_defaults (servers : List Server) (cbss : List (List ShutdownCallback)) :
    (NewApp servers (cbss.map WithShutdownCallbacks)).shutdownTimeout = 30000000000 ∧
    (NewApp servers (cbss.map WithShutdownCallbacks)).waitTime = 10000000000 ∧
    (NewApp servers (cbss.map WithShutdownCallbacks)).cbTimeout = 3000000000 ∧
    (NewApp servers (cbss.map WithShutdownCallbacks)).servers = servers ∧
    ∀ (cbs : List ShutdownCallback) (a : App),
      (WithShutdownCallbacks cbs a).shutdownTimeout = a.shutdownTimeout ∧
      (WithShutdownCallbacks cbs a).waitTime = a.waitTime ∧
      (WithShutdownCallbacks cbs a).cbTimeout = a.cbTimeout ∧
      (WithShutdownCallbacks cbs a).servers = a.servers := by
  have h := foldl_WithShutdownCallbacks cbss
    (servers.foldl (fun a srv => { a with servers := a.servers ++ [srv] })
      (App.mk [] (30 * Second) (10 * Second) (3 * Second) []))
  rw [foldl_servers] at h
  simp only [NewApp]
  rw [foldl_servers]
  obtain ⟨h1, h2, h3, h4⟩ := h
  refine ⟨?_, ?_, ?_, ?_, ?_⟩
  · rw [h2]; simp [Second]
  · rw [h3]; simp [Second]
  · rw [h4]; simp [Second]
  · rw [h1]; simp
  · intro cbs a; simp [WithShutdownCallbacks]

/-! ### Costs -/

theorem costFrom_add (f : Nat → Nat) (i k m : Nat) :
    costFrom f i (k + m) = costFrom f i k + costFrom f (i + k) m := by
  induction k generalizing i with
  | zero => simp [costFrom]
  | succ k ih =>
    have h : k + 1 + m = (k + m) + 1 := by omega
    rw [h]
    simp only [costFrom]
    rw [ih (i + 1)]
    have h2 : i + 1 + k = i + (k + 1) := by omega
    rw [h2]
    omega

theorem costFrom_le (f : Nat → Nat) (i : Nat) {k n : Nat} (h : k ≤ n) :
    costFrom f i k ≤ costFrom f i n := by
  obtain ⟨m, rfl⟩ := Nat.exists_eq_add_of_le h
  rw [costFrom_add]
  omega

/-! ### The server loop -/

theorem rejectLoop_end (env : Env) (w : Int) (i : Nat) (now : Nat)
    (srvs : List Server) :
    (rejectLoop env w i now srvs).2.1 = now + costFrom env.loopCost i srvs.length := by
  induction srvs generalizing i now with
  | nil => simp [rejectLoop, costFrom]
  | cons s rest ih =>
    simp only [rejectLoop, List.length_cons, costFrom]
    rw [ih]
    omega

theorem mem_rejectLoop (env : Env) (w : Int) (i : Nat) (now : Nat)
    (srvs : List Server) (x : Nat × Event) :
    x ∈ (rejectLoop env w i now srvs).2.2 ↔
      ∃ k, k < srvs.length ∧
        (x = (now + costFrom env.loopCost i k, Event.rejectReq (i + k)) ∨
         x = (now + costFrom env.loopCost i k + w.toNat + env.timerLag (i + k),
                Event.Close (i + k))) := by
  induction srvs generalizing i now with
  | nil => simp [rejectLoop]
  | cons s rest ih =>
    simp only [rejectLoop, List.mem_cons, List.length_cons]
    rw [ih]
    constructor
    · rintro (h | h | ⟨k, hk, h⟩)
      · exact ⟨0, by omega, Or.inl (by simpa [costFrom] using h)⟩
      · exact ⟨0, by omega, Or.inr (by simpa [costFrom] using h)⟩
      · refine ⟨k + 1, by omega, ?_⟩
        have e1 : i + (k + 1) = i + 1 + k := by omega
        have e2 : now + costFrom env.loopCost i (k + 1) =
            now + env.loopCost i + costFrom env.loopCost (i + 1) k := by
          simp only [costFrom]; omega
        rw [e1, e2]
        exact h
    · rintro ⟨k, hk, h⟩
      cases k with
      | zero =>
        rcases h with h | h
        · exact Or.inl (by simpa [costFrom] using h)
        · exact Or.inr (Or.inl (by simpa [costFrom] using h))
      | succ k =>
        refine Or.inr (Or.inr ⟨k, by omega, ?_⟩)
        have e1 : i + (k + 1) = i + 1 + k := by omega
        have e2 : now + costFrom env.loopCost i (k + 1) =
            now + env.loopCost i + costFrom env.loopCost (i + 1) k := by
          simp only [costFrom]; omega
        rw [e1, e2] at h
        exact h

theorem rejectLoop_servers (env : Env) (w : Int) (i : Nat) (now : Nat)
    (srvs : List Server) :
    (rejectLoop env w i now srvs).1 = srvs.map Server.rejectReq := by
  induction srvs generalizing i now with
  | nil => simp [rejectLoop]
  | cons s rest ih => simp [rejectLoop, ih]

/-! ### The callback loop and the barrier -/

theorem launchLoop_end (env : Env) (ctx2 : Context) (i : Nat) (now : Nat)
    (cbs : List ShutdownCallback) :
    (launchLoop env ctx2 i now cbs).1 = now + costFrom env.launchCost i cbs.length := by
  induction cbs generalizing i now with
  | nil => simp [launchLoop, costFrom]
  | cons cb rest ih =>
    have h := ih (i + 1) (now + env.launchCost i)
    cases hc : cb now ctx2 <;>
      simp only [launchLoop, hc, List.length_cons, costFrom] <;> rw [h] <;> omega

theorem mem_launchLoop (env : Env) (ctx2 : Context) (i : Nat) (now : Nat)
    (cbs : List ShutdownCallback) (x : Nat × Event) :
    x ∈ (launchLoop env ctx2 i now cbs).2.2 ↔
      ∃ k cb, cbs[k]? = some cb ∧
        (x = (now + costFrom env.launchCost i k, Event.launch (i + k)) ∨
         ∃ d, cb (now + costFrom env.launchCost i k) ctx2 = some d ∧
           x = (now + costFrom env.launchCost i k + d, Event.Done (i + k))) := by
  induction cbs generalizing i now with
  | nil => simp [launchLoop]
  | cons c rest ih =>
    have hrest := ih (i + 1) (now + env.launchCost i)
    have e1 : ∀ k, i + (k + 1) = i + 1 + k := by intro k; omega
    have e2 : ∀ k, now + costFrom env.launchCost i (k + 1) =
        now + env.launchCost i + costFrom env.launchCost (i + 1) k := by
      intro k; simp only [costFrom]; omega
    constructor
    · intro hx
      have hx2 : x = (now, Event.launch i) ∨
          (∃ d, c now ctx2 = some d ∧ x = (now + d, Event.Done i)) ∨
          x ∈ (launchLoop env ctx2 (i + 1) (now + env.launchCost i) rest).2.2 := by
        cases hc : c now ctx2 with
        | none =>
          simp only [launchLoop, hc, List.mem_cons] at hx
          rcases hx with h | h
          · exact Or.inl h
          · exact Or.inr (Or.inr h)
        | some d =>
          simp only [launchLoop, hc, List.mem_cons] at hx
          rcases hx with h | h | h
          · exact Or.inl h
          · exact Or.inr (Or.inl ⟨d, rfl, h⟩)
          · exact Or.inr (Or.inr h)
      rcases hx2 with h | ⟨d, hd, h⟩ | h
      · exact ⟨0, c, by simp, Or.inl (by simpa [costFrom] using h)⟩
      · exact ⟨0, c, by simp, Or.inr ⟨d, by simpa [costFrom] using hd,
          by simpa [costFrom] using h⟩⟩
      · obtain ⟨k, cb, hk, h⟩ := hrest.mp h
        refine ⟨k + 1, cb, by simpa using hk, ?_⟩
        rw [e1, e2]
        exact h
    · rintro ⟨k, cb, hk, h⟩
      cases k with
      | zero =>
        have hcb : c = cb := by simpa using hk
        subst hcb
        simp only [costFrom, Nat.add_zero] at h
        rcases h with h | ⟨d, hd, h⟩
        · cases hc : c now ctx2 <;> simp [launchLoop, hc, h]
        · simp [launchLoop, hd, h]
      | succ k =>
        rw [e1, e2] at h
        have hk2 : rest[k]? = some cb := by simpa using hk
        have hin := hrest.mpr ⟨k, cb, hk2, h⟩
        cases hc : c now ctx2 <;> simp [launchLoop, hc, hin]

theorem mem_launchLoop_dones (env : Env) (ctx2 : Context) (i : Nat) (now : Nat)
    (cbs : List ShutdownCallback) (o : Option Nat) :
    o ∈ (launchLoop env ctx2 i now cbs).2.1 ↔
      ∃ (k : Nat) (cb : ShutdownCallback), cbs[k]? = some cb ∧
        o = (cb (now + costFrom env.launchCost i k) ctx2).map
              (fun d => now + costFrom env.launchCost i k + d) := by
  induction cbs generalizing i now with
  | nil => simp [launchLoop]
  | cons c rest ih =>
    have hrest := ih (i + 1) (now + env.launchCost i)
    have e2 : ∀ k, now + costFrom env.launchCost i (k + 1) =
        now + env.launchCost i + costFrom env.launchCost (i + 1) k := by
      intro k; simp only [costFrom]; omega
    constructor
    · intro ho
      have ho2 : o = (c now ctx2).map (fun d => now + d) ∨
          o ∈ (launchLoop env ctx2 (i + 1) (now + env.launchCost i) rest).2.1 := by
        cases hc : c now ctx2 <;> simpa [launchLoop, hc] using ho
      rcases ho2 with h | h
      · exact ⟨0, c, by simp, by simpa [costFrom] using h⟩
      · obtain ⟨k, cb, hk, h⟩ := hrest.mp h
        refine ⟨k + 1, cb, by simpa using hk, ?_⟩
        rw [e2]
        exact h
    · rintro ⟨k, cb, hk, h⟩
      cases k with
      | zero =>
        have hcb : c = cb := by simpa using hk
        subst hcb
        simp only [costFrom, Nat.add_zero] at h
        cases hc : c now ctx2 <;> simp [launchLoop, hc, h]
      | succ k =>
        rw [e2] at h
        have hk2 : rest[k]? = some cb := by simpa using hk
        have hin := hrest.mpr ⟨k, cb, hk2, h⟩
        cases hc : c now ctx2 <;> simp [launchLoop, hc, hin]

theorem wgWait_some (now : Nat) (ds : List (Option Nat)) (T : Nat)
    (h : wgWait now ds = some T) :
    now ≤ T ∧ ∀ o ∈ ds, ∃ r, o = some r ∧ r ≤ T := by
  induction ds generalizing now with
  | nil =>
    simp only [wgWait, Option.some.injEq] at h
    subst h
    simp
  | cons o rest ih =>
    cases o with
    | none => simp [wgWait] at h
    | some t =>
      simp only [wgWait] at h
      obtain ⟨h1, h2⟩ := ih (max now t) h
      refine ⟨by omega, ?_⟩
      intro o ho
      rcases List.mem_cons.mp ho with e | e
      · exact ⟨t, e, by omega⟩
      · exact h2 o e

theorem wgWait_bound (now : Nat) (ds : List (Option Nat)) (B : Nat) (hB : now ≤ B)
    (h : ∀ o ∈ ds, ∃ r, o = some r ∧ r ≤ B) :
    ∃ T, wgWait now ds = some T ∧ now ≤ T ∧ T ≤ B := by
  induction ds generalizing now with
  | nil => exact ⟨now, by simp [wgWait], by omega, hB⟩
  | cons o rest ih =>
    obtain ⟨r, hr, hrB⟩ := h o (by simp)
    subst hr
    simp only [wgWait]
    obtain ⟨T, hT, h1, h2⟩ := ih (max now r) (by omega)
      (fun o ho => h o (List.mem_cons_of_mem _ ho))
    exact ⟨T, hT, by omega, h2⟩

/-! ### The trace of a shutdown -/

theorem one_Second : (1 * Second).toNat = 1000000000 := by decide

theorem mem_shutdown (app : App) (env : Env) (ctx : Context) (now : Nat) :
    ∃ t2 ctx2, t2 = now + costFrom env.loopCost 0 app.servers.length + app.waitTime.toNat +
        env.sleepLag 0 + 1000000000 + env.sleepLag 1 ∧
      ctx2 = WithTimeout ctx t2 app.cbTimeout ∧
      ∀ x : Nat × Event, (x ∈ (app.shutdown env ctx now).trace ↔
        x ∈ (rejectLoop env app.waitTime 0 now app.servers).2.2 ∨
        x = (t2, Event.callbacks) ∨
        x ∈ (launchLoop env ctx2 0 t2 app.cbs).2.2 ∨
        ∃ t3, wgWait (t2 + costFrom env.launchCost 0 app.cbs.length)
            (launchLoop env ctx2 0 t2 app.cbs).2.1 = some t3 ∧
          (x = (t3, Event.Wait) ∨ x = (t3, Event.close) ∨ x = (t3, Event.Exit 130))) := by
  refine ⟨_, _, rfl, rfl, ?_⟩
  intro x
  unfold App.shutdown
  simp only [rejectLoop_end, launchLoop_end, one_Second]
  cases h : wgWait
      (now + costFrom env.loopCost 0 app.servers.length + app.waitTime.toNat +
        env.sleepLag 0 + 1000000000 + env.sleepLag 1 +
        costFrom env.launchCost 0 app.cbs.length)
      (launchLoop env
        (WithTimeout ctx
          (now + costFrom env.loopCost 0 app.servers.length + app.waitTime.toNat +
            env.sleepLag 0 + 1000000000 + env.sleepLag 1) app.cbTimeout) 0
        (now + costFrom env.loopCost 0 app.servers.length + app.waitTime.toNat +
          env.sleepLag 0 + 1000000000 + env.sleepLag 1) app.cbs).2.1 with
  | none => simp
  | some t3 =>
    simp only [App.close, List.mem_append, List.mem_cons, List.mem_singleton,
      List.not_mem_nil, or_false, Option.some.injEq, exists_eq_left', or_assoc]

theorem shutdown_events (app : App) (env : Env) (ctx : Context) (now : Nat) :
    ∃ t2 ctx2 w, t2 = now + costFrom env.loopCost 0 app.servers.length + app.waitTime.toNat +
        env.sleepLag 0 + 1000000000 + env.sleepLag 1 ∧
      ctx2 = WithTimeout ctx t2 app.cbTimeout ∧
      w = wgWait (t2 + costFrom env.launchCost 0 app.cbs.length)
            (launchLoop env ctx2 0 t2 app.cbs).2.1 ∧
      (∀ t j, (t, Event.rejectReq j) ∈ (app.shutdown env ctx now).trace ↔
        j < app.servers.length ∧ t = now + costFrom env.loopCost 0 j) ∧
      (∀ t j, (t, Event.Close j) ∈ (app.shutdown env ctx now).trace ↔
        j < app.servers.length ∧
          t = now + costFrom env.loopCost 0 j + app.waitTime.toNat + env.timerLag j) ∧
      (∀ t, (t, Event.callbacks) ∈ (app.shutdown env ctx now).trace ↔ t = t2) ∧
      (∀ t j, (t, Event.launch j) ∈ (app.shutdown env ctx now).trace ↔
        j < app.cbs.length ∧ t = t2 + costFrom env.launchCost 0 j) ∧
      (∀ t j, (t, Event.Done j) ∈ (app.shutdown env ctx now).trace ↔
        ∃ (cb : ShutdownCallback) (d : Nat), app.cbs[j]? = some cb ∧
          cb (t2 + costFrom env.launchCost 0 j) ctx2 = some d ∧
          t = t2 + costFrom env.launchCost 0 j + d) ∧
      (∀ t, (t, Event.Wait) ∈ (app.shutdown env ctx now).trace ↔ w = some t) ∧
      (∀ t, (t, Event.close) ∈ (app.shutdown env ctx now).trace ↔ w = some t) ∧
      (∀ t c, (t, Event.Exit c) ∈ (app.shutdown env ctx now).trace ↔
        c = 130 ∧ w = some t) := by
  obtain ⟨t2, ctx2, ht2, hctx2, hmem⟩ := mem_shutdown app env ctx now
  refine ⟨t2, ctx2, _, ht2, hctx2, rfl, ?_, ?_, ?_, ?_, ?_, ?_, ?_, ?_⟩
  · intro t j
    rw [hmem]
    simp [mem_rejectLoop, mem_launchLoop]
  · intro t j
    rw [hmem]
    simp [mem_rejectLoop, mem_launchLoop]
  · intro t
    rw [hmem]
    simp [mem_rejectLoop, mem_launchLoop]
  · intro t j
    rw [hmem]
    simp [mem_rejectLoop, mem_launchLoop]
    intro _
    constructor
    · rintro ⟨cb, hcb⟩
      by_contra hlt
      rw [List.getElem?_eq_none (by omega)] at hcb
      exact Option.noConfusion hcb
    · intro hlt
      exact ⟨app.cbs[j], List.getElem?_eq_getElem hlt⟩
  · intro t j
    rw [hmem]
    simp [mem_rejectLoop, mem_launchLoop]
    constructor
    · rintro ⟨k, cb, hk, d, hd, ht, rfl⟩
      exact ⟨cb, hk, d, hd, ht⟩
    · rintro ⟨cb, hk, d, hd, ht⟩
      exact ⟨j, cb, hk, d, hd, ht, rfl⟩
  · intro t
    rw [hmem]
    simp [mem_rejectLoop, mem_launchLoop]
  · intro t
    rw [hmem]
    simp [mem_rejectLoop, mem_launchLoop]
  · intro t c
    rw [hmem]
    simp [mem_rejectLoop, mem_launchLoop]
    constructor
    · rintro ⟨t3, h, rfl, rfl⟩
      exact ⟨rfl, h⟩
    · rintro ⟨rfl, h⟩
      exact ⟨t, h, rfl, rfl⟩

theorem shutdown_servers (app : App) (env : Env) (ctx : Context) (now : Nat) :
    (app.shutdown env ctx now).servers = app.servers.map Server.rejectReq := by
  unfold App.shutdown
  simp only []
  split <;> simp [rejectLoop_servers]

theorem WithTimeout_Done (c : Context) (t : Nat) (x : Int) :
    ∃ d, (WithTimeout c t x).Done = some d ∧ d ≤ t + x.toNat := by
  obtain ⟨dl, ca⟩ := c
  cases dl <;> cases ca <;> simp [WithTimeout, Context.Done, earlier]

/-! ### The barrier -/

/-- C2. In every run of `shutdown`, if `app.close()` is called at an instant `T`, then every
callback of `app.cbs` was launched and has returned (its `wg.Done()` has run) at an instant
not after `T`. -/
theorem shutdown_close_after_callbacks (app : App) (env : Env) (ctx : Context) (now T : Nat)
    (h : (T, Event.close) ∈ (app.shutdown env ctx now).trace)
    (i : Nat) (hi : i < app.cbs.length) :
    ∃ l r, (l, Event.launch i) ∈ (app.shutdown env ctx now).trace ∧
      (r, Event.Done i) ∈ (app.shutdown env ctx now).trace ∧ l ≤ r ∧ r ≤ T := by
  obtain ⟨t2, ctx2, w, -, -, hw, -, -, -, hlaunch, hdone, -, hclose, -⟩ :=
    shutdown_events app env ctx now
  have hwT : w = some T := (hclose T).mp h
  rw [hw] at hwT
  obtain ⟨-, hall⟩ := wgWait_some _ _ _ hwT
  have hmem := (mem_launchLoop_dones env ctx2 0 t2 app.cbs _).mpr
    ⟨i, app.cbs[i], List.getElem?_eq_getElem hi, rfl⟩
  obtain ⟨r, hr, hrT⟩ := hall _ hmem
  cases hc : app.cbs[i] (t2 + costFrom env.launchCost 0 i) ctx2 with
  | none => rw [hc] at hr; simp at hr
  | some d =>
    rw [hc] at hr
    simp only [Option.map_some', Option.some.injEq] at hr
    exact ⟨t2 + costFrom env.launchCost 0 i, r, (hlaunch _ _).mpr ⟨hi, rfl⟩,
      (hdone _ _).mpr ⟨app.cbs[i], d, List.getElem?_eq_getElem hi, hc, hr.symm⟩,
      by omega, hrT⟩

/-- C2, at the application of `main.go`: `close` is called at 14 s, and the first callback
was launched and had returned by then. -/
theorem shutdown_close_after_callbacks_witness :
    ∃ l r, (l, Event.launch 0) ∈ (main.app.shutdown Env.ideal ctx30 0).trace ∧
      (r, Event.Done 0) ∈ (main.app.shutdown Env.ideal ctx30 0).trace ∧
      l ≤ r ∧ r ≤ 14000000000 :=
  shutdown_close_after_callbacks main.app Env.ideal ctx30 0 14000000000 (by decide) 0
    (by decide)

/-- C3, refuted. With a callback that never returns and never looks at its context, the run
of `shutdown` stops in `wg.Wait()`: after the launch nothing happens any more, whatever
time passes.  With a callback that works 5 s without looking at its context, against the
budget of 3 s, the callback phase begins at 11 s and ends at 16 s. -/
theorem shutdown_barrier_waits_for_ever :
    ((NewApp [] [WithShutdownCallbacks [neverReturns]]).shutdown Env.ideal ctx30 0).trace =
      [(11000000000, Event.callbacks), (11000000000, Event.launch 0)] ∧
    ((NewApp [] [WithShutdownCallbacks [ignoresContext 5000000000]]).shutdown
        Env.ideal ctx30 0).trace =
      [(11000000000, Event.callbacks), (11000000000, Event.launch 0),
       (16000000000, Event.Done 0), (16000000000, Event.Wait), (16000000000, Event.close),
       (16000000000, Event.Exit 130)] := by
  constructor <;> decide

/-- C3, amended. If every callback returns no later than the instant at which the context it
was given is done (or at once when that instant is past), then the callback phase of
`shutdown` ends, and it ends no later than `cbTimeout` after it began, plus the time the
launches take. -/
theorem shutdown_barrier_cooperative (app : App) (env : Env) (ctx : Context) (now : Nat)
    (h : ∀ cb ∈ app.cbs, ∀ (t : Nat) (c : Context) (d : Nat), c.Done = some d →
      ∃ e, cb t c = some e ∧ t + e ≤ max t d) :
    ∃ t0 T, (t0, Event.callbacks) ∈ (app.shutdown env ctx now).trace ∧
      (T, Event.Wait) ∈ (app.shutdown env ctx now).trace ∧ t0 ≤ T ∧
      T ≤ t0 + app.cbTimeout.toNat + costFrom env.launchCost 0 app.cbs.length := by
  obtain ⟨t2, ctx2, w, -, hctx2, hw, -, -, hcbs, -, -, hwait, -, -⟩ :=
    shutdown_events app env ctx now
  obtain ⟨d2, hd2, hle⟩ := WithTimeout_Done ctx t2 app.cbTimeout
  rw [← hctx2] at hd2
  have hb := wgWait_bound (t2 + costFrom env.launchCost 0 app.cbs.length)
    (launchLoop env ctx2 0 t2 app.cbs).2.1
    (t2 + app.cbTimeout.toNat + costFrom env.launchCost 0 app.cbs.length) (by omega)
    (by
      intro o ho
      obtain ⟨k, cb, hk, rfl⟩ := (mem_launchLoop_dones env ctx2 0 t2 app.cbs o).mp ho
      have hkl : k < app.cbs.length := by
        by_contra hlt
        rw [List.getElem?_eq_none (by omega)] at hk
        exact Option.noConfusion hk
      have hcost := costFrom_le env.launchCost 0 (Nat.le_of_lt hkl)
      obtain ⟨e, he, hbound⟩ := h cb (List.getElem?_mem hk)
        (t2 + costFrom env.launchCost 0 k) ctx2 d2 hd2
      refine ⟨t2 + costFrom env.launchCost 0 k + e, by simp [he], ?_⟩
      omega)
  obtain ⟨T, hT, h1, h2⟩ := hb
  rw [← hw] at hT
  exact ⟨t2, T, (hcbs t2).mpr rfl, (hwait T).mpr hT, by omega, h2⟩

theorem main_cbs : main.app.cbs = [main.StoreCacheToDBCallback, main.SecondCallback] := rfl

theorem main_cooperative :
    ∀ cb ∈ main.app.cbs, ∀ (t : Nat) (c : Context) (d : Nat), c.Done = some d →
      ∃ e, cb t c = some e ∧ t + e ≤ max t d := by
  intro cb hcb t c d hd
  rw [main_cbs] at hcb
  simp only [List.mem_cons, List.mem_singleton, List.not_mem_nil, or_false] at hcb
  rcases hcb with rfl | rfl
  · exact ⟨min (5 * Second).toNat (d - t), by simp [main.StoreCacheToDBCallback, hd],
      by omega⟩
  · exact ⟨min (2 * Second).toNat (d - t), by simp [main.SecondCallback, hd], by omega⟩

/-- C3 amended, at the application of `main.go`, whose two callbacks select on
`ctx.Done()`: the callback phase ends within `cbTimeout` of its beginning. -/
theorem shutdown_barrier_cooperative_witness :
    (∀ cb ∈ main.app.cbs, ∀ (t : Nat) (c : Context) (d : Nat), c.Done = some d →
      ∃ e, cb t c = some e ∧ t + e ≤ max t d) ∧
    ∃ t0 T, (t0, Event.callbacks) ∈ (main.app.shutdown Env.ideal ctx30 0).trace ∧
      (T, Event.Wait) ∈ (main.app.shutdown Env.ideal ctx30 0).trace ∧ t0 ≤ T ∧
      T ≤ t0 + main.app.cbTimeout.toNat + costFrom Env.ideal.launchCost 0 main.app.cbs.length :=
  ⟨main_cooperative, shutdown_barrier_cooperative main.app Env.ideal ctx30 0 main_cooperative⟩

/-! ### Reject and close -/

/-- C4, refuted. With a `waitTime` of zero and a server loop whose iterations take one
nanosecond, the timer of the first server fires at instant 0 and its `Close` begins, while
`rejectReq` is called on the second server at instant 1 only. -/
theorem shutdown_close_before_reject :
    (appNoWait.shutdown Env.tick ctx30 0).trace =
      [(0, Event.rejectReq 0), (0, Event.Close 0), (1, Event.rejectReq 1), (1, Event.Close 1),
       (1000000002, Event.callbacks), (1000000002, Event.Wait), (1000000002, Event.close),
       (1000000002, Event.Exit 130)] := by
  decide

/-- C4, amended. If the server loop of `shutdown` takes less than `waitTime`, then
`rejectReq` is called on every server, every server is left with its reject flag set, and
every call of `rejectReq` comes strictly before the `Close` of any server begins. -/
theorem shutdown_reject_before_close (app : App) (env : Env) (ctx : Context) (now : Nat)
    (h : costFrom env.loopCost 0 app.servers.length < app.waitTime.toNat) :
    (∀ j, j < app.servers.length →
      ∃ t, (t, Event.rejectReq j) ∈ (app.shutdown env ctx now).trace) ∧
    (∀ s ∈ (app.shutdown env ctx now).servers, s.mux.reject = true) ∧
    ∀ i j tr tc, (tr, Event.rejectReq j) ∈ (app.shutdown env ctx now).trace →
      (tc, Event.Close i) ∈ (app.shutdown env ctx now).trace → tr < tc := by
  obtain ⟨t2, ctx2, w, -, -, -, hrej, hclose, -⟩ := shutdown_events app env ctx now
  refine ⟨?_, ?_, ?_⟩
  · intro j hj
    exact ⟨_, (hrej _ j).mpr ⟨hj, rfl⟩⟩
  · intro s hs
    rw [shutdown_servers] at hs
    obtain ⟨s0, -, rfl⟩ := List.mem_map.mp hs
    rfl
  · intro i j tr tc hr hc
    obtain ⟨hj, rfl⟩ := (hrej tr j).mp hr
    obtain ⟨-, rfl⟩ := (hclose tc i).mp hc
    have := costFrom_le env.loopCost 0 (Nat.le_of_lt hj)
    omega

/-- C4 amended, at the application of `main.go` (`waitTime` of 10 s) on the runtime whose
loop iterations take one nanosecond. -/
theorem shutdown_reject_before_close_witness :
    costFrom Env.tick.loopCost 0 main.app.servers.length < main.app.waitTime.toNat ∧
    (∀ j, j < main.app.servers.length →
      ∃ t, (t, Event.rejectReq j) ∈ (main.app.shutdown Env.tick ctx30 0).trace) ∧
    (∀ s ∈ (main.app.shutdown Env.tick ctx30 0).servers, s.mux.reject = true) ∧
    ∀ i j tr tc, (tr, Event.rejectReq j) ∈ (main.app.shutdown Env.tick ctx30 0).trace →
      (tc, Event.Close i) ∈ (main.app.shutdown Env.tick ctx30 0).trace → tr < tc :=
  ⟨by decide, shutdown_reject_before_close main.app Env.tick ctx30 0 (by decide)⟩

/-! ### Who ends the process -/

/-- C7, refuted. At the application of `main.go` the run of `shutdown` itself calls
`os.Exit(130)`, through `app.close()`, at 14 s. -/
theorem shutdown_exits_process :
    (14000000000, Event.close) ∈ (main.app.shutdown Env.ideal ctx30 0).trace ∧
    (14000000000, Event.Exit 130) ∈ (main.app.shutdown Env.ideal ctx30 0).trace := by
  decide

/-- C7, amended. In every run of `shutdown`, the process is terminated by the sequencer
exactly when it calls `app.close()`: there is a call `os.Exit(c)` at an instant if and only
if `c` is 130 and `app.close()` is called at that instant, which is the instant at which
`wg.Wait()` returns. -/
theorem shutdown_exit_iff_close (app : App) (env : Env) (ctx : Context) (now T c : Nat) :
    ((T, Event.Exit c) ∈ (app.shutdown env ctx now).trace ↔
      c = 130 ∧ (T, Event.close) ∈ (app.shutdown env ctx now).trace) ∧
    ((T, Event.close) ∈ (app.shutdown env ctx now).trace ↔
      (T, Event.Wait) ∈ (app.shutdown env ctx now).trace) := by
  obtain ⟨t2, ctx2, w, -, -, -, -, -, -, -, -, hwait, hclose, hexit⟩ :=
    shutdown_events app env ctx now
  rw [hexit, hclose, hwait]
  exact ⟨Iff.rfl, Iff.rfl⟩

/-! ### When cleanup is reached -/

/-- C8, refuted. On the runtime that adds no time, with the default durations and one
callback that returns after exactly the 3 s of `cbTimeout`, `shutdown` started at instant 0
calls `app.close()` at 14 s and at no other instant: that is beyond
`waitTime + cbTimeout + ε` (13 s + ε) for a slack `ε` of 999999999 ns, by the second of the
second `time.Sleep`. -/
theorem shutdown_cleanup_after_budgets :
    (appExact.shutdown Env.ideal ctx30 0).trace =
      [(11000000000, Event.callbacks), (11000000000, Event.launch 0),
       (14000000000, Event.Done 0), (14000000000, Event.Wait), (14000000000, Event.close),
       (14000000000, Event.Exit 130)] ∧
    (14000000000 ≤ 11000000000 + appExact.cbTimeout.toNat) ∧
    ¬ (14000000000 ≤ 0 + appExact.waitTime.toNat + appExact.cbTimeout.toNat + 999999999) := by
  refine ⟨?_, ?_, ?_⟩ <;> decide

/-- C8, amended. If every callback that is launched returns within `cbTimeout` of its
launch, then `shutdown` calls `app.close()`, no earlier than `waitTime` plus one second
after it starts and no later than `waitTime` plus one second plus `cbTimeout` plus the time
the runtime adds. -/
theorem shutdown_cleanup_bounds (app : App) (env : Env) (ctx : Context) (now : Nat)
    (h : ∀ i l, (l, Event.launch i) ∈ (app.shutdown env ctx now).trace →
      ∃ r, (r, Event.Done i) ∈ (app.shutdown env ctx now).trace ∧
        r ≤ l + app.cbTimeout.toNat) :
    ∃ T, (T, Event.close) ∈ (app.shutdown env ctx now).trace ∧
      now + app.waitTime.toNat + 1000000000 ≤ T ∧
      T ≤ now + app.waitTime.toNat + 1000000000 + app.cbTimeout.toNat +
        env.slack app.servers.length app.cbs.length := by
  obtain ⟨t2, ctx2, w, ht2, -, hw, -, -, -, hlaunch, hdone, -, hclose, -⟩ :=
    shutdown_events app env ctx now
  have hb := wgWait_bound (t2 + costFrom env.launchCost 0 app.cbs.length)
    (launchLoop env ctx2 0 t2 app.cbs).2.1
    (t2 + costFrom env.launchCost 0 app.cbs.length + app.cbTimeout.toNat) (by omega)
    (by
      intro o ho
      obtain ⟨k, cb, hk, rfl⟩ := (mem_launchLoop_dones env ctx2 0 t2 app.cbs o).mp ho
      have hkl : k < app.cbs.length := by
        by_contra hlt
        rw [List.getElem?_eq_none (by omega)] at hk
        exact Option.noConfusion hk
      have hcost := costFrom_le env.launchCost 0 (Nat.le_of_lt hkl)
      obtain ⟨r, hr, hrl⟩ := h k _ ((hlaunch _ k).mpr ⟨hkl, rfl⟩)
      obtain ⟨cb2, d, hk2, hd, rfl⟩ := (hdone r k).mp hr
      rw [hk] at hk2
      obtain rfl : cb = cb2 := Option.some.inj hk2
      refine ⟨t2 + costFrom env.launchCost 0 k + d, by simp [hd], ?_⟩
      omega)
  obtain ⟨T, hT, h1, h2⟩ := hb
  rw [← hw] at hT
  refine ⟨T, (hclose T).mpr hT, by omega, ?_⟩
  unfold Env.slack
  omega

theorem main_trace :
    (main.app.shutdown Env.ideal ctx30 0).trace =
      [(0, Event.rejectReq 0), (10000000000, Event.Close 0), (0, Event.rejectReq 1),
       (10000000000, Event.Close 1), (11000000000, Event.callbacks),
       (11000000000, Event.launch 0), (14000000000, Event.Done 0),
       (11000000000, Event.launch 1), (13000000000, Event.Done 1),
       (14000000000, Event.Wait), (14000000000, Event.close),
       (14000000000, Event.Exit 130)] := by
  decide

theorem main_within_budget :
    ∀ i l, (l, Event.launch i) ∈ (main.app.shutdown Env.ideal ctx30 0).trace →
      ∃ r, (r, Event.Done i) ∈ (main.app.shutdown Env.ideal ctx30 0).trace ∧
        r ≤ l + main.app.cbTimeout.toNat := by
  intro i l hl
  rw [main_trace] at hl ⊢
  simp at hl
  rcases hl with ⟨rfl, rfl⟩ | ⟨rfl, rfl⟩
  · exact ⟨14000000000, by decide, by decide⟩
  · exact ⟨13000000000, by decide, by decide⟩

/-- C8 amended, at the application of `main.go` on the runtime that adds no time: both
callbacks return within 3 s of their launch, and `close` is called between 11 s and 14 s. -/
theorem shutdown_cleanup_bounds_witness :
    (∀ i l, (l, Event.launch i) ∈ (main.app.shutdown Env.ideal ctx30 0).trace →
      ∃ r, (r, Event.Done i) ∈ (main.app.shutdown Env.ideal ctx30 0).trace ∧
        r ≤ l + main.app.cbTimeout.toNat) ∧
    ∃ T, (T, Event.close) ∈ (main.app.shutdown Env.ideal ctx30 0).trace ∧
      0 + main.app.waitTime.toNat + 1000000000 ≤ T ∧
      T ≤ 0 + main.app.waitTime.toNat + 1000000000 + main.app.cbTimeout.toNat +
        Env.ideal.slack main.app.servers.length main.app.cbs.length :=
  ⟨main_within_budget, shutdown_cleanup_bounds main.app Env.ideal ctx30 0 main_within_budget⟩

/-! ### The signal select of StartAndServe -/

theorem exitOf_some_mem (tr : Trace) (t c : Nat) (h : exitOf tr = some (t, c)) :
    (t, Event.Exit c) ∈ tr := by
  induction tr with
  | nil => simp [exitOf] at h
  | cons x rest ih =>
    obtain ⟨u, e⟩ := x
    cases e with
    | Exit code =>
      simp only [exitOf, Option.some.injEq, Prod.mk.injEq] at h
      obtain ⟨rfl, rfl⟩ := h
      simp
    | rejectReq j => exact List.mem_cons_of_mem _ (ih (by simpa [exitOf] using h))
    | Close j => exact List.mem_cons_of_mem _ (ih (by simpa [exitOf] using h))
    | callbacks => exact List.mem_cons_of_mem _ (ih (by simpa [exitOf] using h))
    | launch j => exact List.mem_cons_of_mem _ (ih (by simpa [exitOf] using h))
    | Done j => exact List.mem_cons_of_mem _ (ih (by simpa [exitOf] using h))
    | Wait => exact List.mem_cons_of_mem _ (ih (by simpa [exitOf] using h))
    | close => exact List.mem_cons_of_mem _ (ih (by simpa [exitOf] using h))

theorem exitOf_none (tr : Trace) (h : exitOf tr = none) (t c : Nat) :
    (t, Event.Exit c) ∉ tr := by
  induction tr with
  | nil => simp
  | cons x rest ih =>
    obtain ⟨u, e⟩ := x
    cases e with
    | Exit code => simp [exitOf] at h
    | rejectReq j => simpa using ih (by simpa [exitOf] using h)
    | Close j => simpa using ih (by simpa [exitOf] using h)
    | callbacks => simpa using ih (by simpa [exitOf] using h)
    | launch j => simpa using ih (by simpa [exitOf] using h)
    | Done j => simpa using ih (by simpa [exitOf] using h)
    | Wait => simpa using ih (by simpa [exitOf] using h)
    | close => simpa using ih (by simpa [exitOf] using h)

theorem exitOf_shutdown (app : App) (env : Env) (ctx : Context) (now f c : Nat) :
    exitOf (app.shutdown env ctx now).trace = some (f, c) ↔
      (f, Event.Exit c) ∈ (app.shutdown env ctx now).trace := by
  constructor
  · exact exitOf_some_mem _ f c
  · intro h
    obtain ⟨t2, ctx2, w, -, -, -, -, -, -, -, -, -, -, hexit⟩ :=
      shutdown_events app env ctx now
    cases he : exitOf (app.shutdown env ctx now).trace with
    | none => exact absurd h (exitOf_none _ he f c)
    | some e =>
      obtain ⟨f2, c2⟩ := e
      have h2 := exitOf_some_mem _ f2 c2 he
      obtain ⟨rfl, hw⟩ := (hexit f c).mp h
      obtain ⟨rfl, hw2⟩ := (hexit f2 c2).mp h2
      rw [hw] at hw2
      obtain rfl : f = f2 := Option.some.inj hw2
      rfl

theorem StartAndServe_some (app : App) (env : Env) (now : Nat) (second : Option Nat) :
    app.StartAndServe env (some now) second =
      firstOf (second.toList.map (fun g => (now + g, Outcome.Exit 127 (now + g))) ++
        [(now + app.shutdownTimeout.toNat, Outcome.Exit 1 (now + app.shutdownTimeout.toNat))] ++
        (exitOf (app.shutdown env (WithTimeout Background now app.shutdownTimeout)
          now).trace).toList.map (fun e => (e.1, Outcome.Exit e.2 e.1))) := by
  have hD : (WithTimeout Background now app.shutdownTimeout).Done =
      some (now + app.shutdownTimeout.toNat) := by
    simp [WithTimeout, Background, earlier, Context.Done]
  have hE : (WithTimeout Background now app.shutdownTimeout).Err
      (now + app.shutdownTimeout.toNat) = some ctxErr.DeadlineExceeded := by
    simp [WithTimeout, Background, earlier, Context.Err]
  simp only [App.StartAndServe, hD, hE, Option.toList, List.map, if_true]

theorem firstOf_one (a : Nat) (x : Outcome) : firstOf [(a, x)] = [x] := by
  simp [firstOf]

theorem firstOf_two_left (a b : Nat) (x y : Outcome) (h : a < b) :
    firstOf [(a, x), (b, y)] = [x] := by
  have h1 : a ≤ b := by omega
  have h2 : ¬ b ≤ a := by omega
  simp [firstOf, List.filter, h1, h2]

theorem firstOf_two_right (a b : Nat) (x y : Outcome) (h : b < a) :
    firstOf [(a, x), (b, y)] = [y] := by
  have h1 : b ≤ a := by omega
  have h2 : ¬ a ≤ b := by omega
  simp [firstOf, List.filter, h1, h2]

theorem firstOf_two_tie (a : Nat) (x y : Outcome) :
    firstOf [(a, x), (a, y)] = [x, y] := by
  simp [firstOf, List.filter]

theorem firstOf_three_left (a b c : Nat) (x y z : Outcome) (hb : a < b) (hc : a < c) :
    firstOf [(a, x), (b, y), (c, z)] = [x] := by
  have h1 : a ≤ b := by omega
  have h2 : ¬ b ≤ a := by omega
  have h3 : a ≤ c := by omega
  have h4 : ¬ c ≤ a := by omega
  simp [firstOf, List.filter, h1, h2, h3, h4]

theorem exists_first (l : List (Nat × Outcome)) (h : l ≠ []) :
    ∃ c ∈ l, ∀ c2 ∈ l, c.1 ≤ c2.1 := by
  induction l with
  | nil => exact absurd rfl h
  | cons a rest ih =>
    by_cases hr : rest = []
    · subst hr
      exact ⟨a, by simp, by simp⟩
    · obtain ⟨c, hc, hmin⟩ := ih hr
      by_cases hac : a.1 ≤ c.1
      · refine ⟨a, by simp, ?_⟩
        intro c2 hc2
        rcases List.mem_cons.mp hc2 with e | e
        · rw [e]
        · exact Nat.le_trans hac (hmin c2 e)
      · refine ⟨c, List.mem_cons_of_mem _ hc, ?_⟩
        intro c2 hc2
        rcases List.mem_cons.mp hc2 with e | e
        · rw [e]; omega
        · exact hmin c2 e

theorem firstOf_ne_nil (l : List (Nat × Outcome)) : firstOf l ≠ [] := by
  cases l with
  | nil => simp [firstOf]
  | cons a rest =>
    obtain ⟨c, hc, hmin⟩ := exists_first (a :: rest) (by simp)
    have hin : c.2 ∈ firstOf (a :: rest) := by
      simp only [firstOf]
      refine List.mem_map.mpr ⟨c, List.mem_filter.mpr ⟨hc, ?_⟩, rfl⟩
      exact List.all_eq_true.mpr (fun c2 hc2 => decide_eq_true (hmin c2 hc2))
    exact List.ne_nil_of_mem hin

theorem mem_firstOf (l : List (Nat × Outcome)) (hl : l ≠ []) (o : Outcome)
    (h : o ∈ firstOf l) : ∃ c ∈ l, c.2 = o := by
  cases l with
  | nil => exact absurd rfl hl
  | cons a rest =>
    simp only [firstOf] at h
    obtain ⟨c, hc, rfl⟩ := List.mem_map.mp h
    exact ⟨c, (List.mem_filter.mp hc).1, rfl⟩

/-- C5, refuted. The application of `main.go` needs 14 s for its whole sequence (so does
`appMid` when its context has no deadline).  With a `shutdownTimeout` of 12 s the deadline
falls in the callback phase: the callbacks, which select on the done channel of `ctx2`,
return at 12 s because the timeout has elapsed, `shutdown` gets to `os.Exit(130)` at that
same instant, and the process exits with code 1 or with code 130, as the scheduler
decides: the timeout has elapsed before the phases were finished, and the code is not
bound to be 1. -/
theorem StartAndServe_deadline_in_callbacks :
    (14000000000, Event.close) ∈ (appMid.shutdown Env.ideal Background 0).trace ∧
    0 + appMid.shutdownTimeout.toNat = 12000000000 ∧
    (appMid.shutdown Env.ideal (WithTimeout Background 0 appMid.shutdownTimeout) 0).trace =
      [(0, Event.rejectReq 0), (10000000000, Event.Close 0), (0, Event.rejectReq 1),
       (10000000000, Event.Close 1), (11000000000, Event.callbacks),
       (11000000000, Event.launch 0), (12000000000, Event.Done 0),
       (11000000000, Event.launch 1), (12000000000, Event.Done 1),
       (12000000000, Event.Wait), (12000000000, Event.close),
       (12000000000, Event.Exit 130)] ∧
    appMid.StartAndServe Env.ideal (some 0) none =
      [Outcome.Exit 1 12000000000, Outcome.Exit 130 12000000000] := by
  refine ⟨?_, ?_, ?_, ?_⟩ <;> decide

/-- C5, amended. After a first signal at `now` and with no second signal: if the run of
`shutdown` reaches its `os.Exit(130)` at an instant strictly before `shutdownTimeout` has
elapsed, the process exits there with code 130; if every exit of that run would come
strictly after `shutdownTimeout` has elapsed (or the run never gets to one), the process
exits with code 1 when the timeout elapses; if the run reaches its `os.Exit(130)` at the
very instant the timeout elapses, the process exits at that instant with code 1 or with
code 130; and the two codes differ. -/
theorem StartAndServe_clean_or_timeout (app : App) (env : Env) (now : Nat) :
    (∀ f, (f, Event.Exit 130) ∈
        (app.shutdown env (WithTimeout Background now app.shutdownTimeout) now).trace →
      f < now + app.shutdownTimeout.toNat →
      app.StartAndServe env (some now) none = [Outcome.Exit 130 f]) ∧
    ((∀ f c, (f, Event.Exit c) ∈
        (app.shutdown env (WithTimeout Background now app.shutdownTimeout) now).trace →
        now + app.shutdownTimeout.toNat < f) →
      app.StartAndServe env (some now) none =
        [Outcome.Exit 1 (now + app.shutdownTimeout.toNat)]) ∧
    ((now + app.shutdownTimeout.toNat, Event.Exit 130) ∈
        (app.shutdown env (WithTimeout Background now app.shutdownTimeout) now).trace →
      app.StartAndServe env (some now) none =
        [Outcome.Exit 1 (now + app.shutdownTimeout.toNat),
         Outcome.Exit 130 (now + app.shutdownTimeout.toNat)]) ∧
    ∀ f, Outcome.Exit 130 f ≠ Outcome.Exit 1 (now + app.shutdownTimeout.toNat) := by
  refine ⟨?_, ?_, ?_, ?_⟩
  · intro f hf hlt
    rw [StartAndServe_some, (exitOf_shutdown _ _ _ _ f 130).mpr hf]
    exact firstOf_two_right _ _ _ _ hlt
  · intro h
    rw [StartAndServe_some]
    cases he : exitOf
        (app.shutdown env (WithTimeout Background now app.shutdownTimeout) now).trace with
    | none => exact firstOf_one _ _
    | some e =>
      obtain ⟨f, c⟩ := e
      have hlt := h f c (exitOf_some_mem _ f c he)
      exact firstOf_two_left _ _ _ _ hlt
  · intro hf
    rw [StartAndServe_some, (exitOf_shutdown _ _ _ _ _ 130).mpr hf]
    exact firstOf_two_tie _ _ _
  · intro f hne
    simp at hne

/-- C6. After a first signal at `now`, a second signal that comes `g` later, before
`shutdownTimeout` has elapsed and before the run of `shutdown` gets to an exit, ends the
process at that very instant with code 127, whatever the durations and the callbacks; and
127 is neither 130 nor 1. -/
theorem StartAndServe_second_signal (app : App) (env : Env) (now g : Nat)
    (hg : g < app.shutdownTimeout.toNat)
    (hrun : ∀ f c, (f, Event.Exit c) ∈
        (app.shutdown env (WithTimeout Background now app.shutdownTimeout) now).trace →
      now + g < f) :
    app.StartAndServe env (some now) (some g) = [Outcome.Exit 127 (now + g)] ∧
    (∀ t u, Outcome.Exit 127 t ≠ Outcome.Exit 130 u) ∧
    (∀ t u, Outcome.Exit 127 t ≠ Outcome.Exit 1 u) := by
  refine ⟨?_, ?_, ?_⟩
  · rw [StartAndServe_some]
    cases he : exitOf
        (app.shutdown env (WithTimeout Background now app.shutdownTimeout) now).trace with
    | none => exact firstOf_two_left _ _ _ _ (by omega)
    | some e =>
      obtain ⟨f, c⟩ := e
      have hlt := hrun f c (exitOf_some_mem _ f c he)
      exact firstOf_three_left _ _ _ _ _ _ (by omega) hlt
  · intro t u hne
    simp at hne
  · intro t u hne
    simp at hne

/-- C9. A call of `StartAndServe` always has an outcome, and none of its outcomes is a
return to the caller: without a first signal it waits for ever, and after a first signal,
whatever follows (a second signal or none, the timeout, the end of the run of `shutdown`),
it ends by `os.Exit` with code 127, 1 or 130. -/
theorem StartAndServe_never_returns (app : App) (env : Env) (first : Option Nat)
    (second : Option Nat) :
    app.StartAndServe env first second ≠ [] ∧
    ∀ o ∈ app.StartAndServe env first second,
      (∀ t, o ≠ Outcome.returned t) ∧
      ((first = none ∧ o = Outcome.blocked) ∨
       (first ≠ none ∧ ∃ c t, o = Outcome.Exit c t ∧ (c = 127 ∨ c = 1 ∨ c = 130))) := by
  cases first with
  | none => simp [App.StartAndServe]
  | some now =>
    rw [StartAndServe_some]
    refine ⟨firstOf_ne_nil _, ?_⟩
    intro o ho
    obtain ⟨c, hc, rfl⟩ := mem_firstOf _ (by simp) o ho
    have hexit : ∃ code t, c.2 = Outcome.Exit code t ∧
        (code = 127 ∨ code = 1 ∨ code = 130) := by
      simp only [List.mem_append, List.mem_map, List.mem_singleton, Option.mem_toList,
        Option.mem_def] at hc
      rcases hc with (⟨g, -, rfl⟩ | rfl) | ⟨e, he, rfl⟩
      · exact ⟨127, _, rfl, Or.inl rfl⟩
      · exact ⟨1, _, rfl, Or.inr (Or.inl rfl)⟩
      · obtain ⟨f, code⟩ := e
        have hmem := exitOf_some_mem _ f code he
        obtain ⟨t2, ctx2, w, -, -, -, -, -, -, -, -, -, -, hx⟩ :=
          shutdown_events app env (WithTimeout Background now app.shutdownTimeout) now
        obtain ⟨rfl, -⟩ := (hx f code).mp hmem
        exact ⟨130, f, rfl, Or.inr (Or.inr rfl)⟩
    obtain ⟨code, t, hct, hcode⟩ := hexit
    refine ⟨?_, Or.inr ⟨by simp, code, t, hct, hcode⟩⟩
    intro u hu
    rw [hct] at hu
    exact Outcome.noConfusion hu

theorem main_exit (f c : Nat)
    (h : (f, Event.Exit c) ∈
      (main.app.shutdown Env.ideal (WithTimeout Background 0 main.app.shutdownTimeout) 0).trace) :
    f = 14000000000 ∧ c = 130 := by
  have h2 : (f, Event.Exit c) ∈ (main.app.shutdown Env.ideal ctx30 0).trace := h
  rw [main_trace] at h2
  simpa using h2

theorem appShort_trace :
    (appShort.shutdown Env.ideal (WithTimeout Background 0 appShort.shutdownTimeout) 0).trace =
      [(0, Event.rejectReq 0), (10000000000, Event.Close 0), (0, Event.rejectReq 1),
       (10000000000, Event.Close 1), (11000000000, Event.callbacks),
       (11000000000, Event.launch 0), (11000000000, Event.Done 0),
       (11000000000, Event.launch 1), (11000000000, Event.Done 1),
       (11000000000, Event.Wait), (11000000000, Event.close),
       (11000000000, Event.Exit 130)] := by
  decide

theorem appShort_exit (f c : Nat)
    (h : (f, Event.Exit c) ∈
      (appShort.shutdown Env.ideal (WithTimeout Background 0 appShort.shutdownTimeout) 0).trace) :
    0 + appShort.shutdownTimeout.toNat < f := by
  rw [appShort_trace] at h
  have h2 : f = 11000000000 ∧ c = 130 := by simpa using h
  rw [h2.1]
  decide

/-- C5 amended, at the application of `main.go` on the runtime that adds no time: with the
default `shutdownTimeout` of 30 s the run of `shutdown` ends the process at 14 s with code
130; with a `shutdownTimeout` of 5 s the process exits at 5 s with code 1. -/
theorem StartAndServe_clean_or_timeout_witness :
    main.app.StartAndServe Env.ideal (some 0) none = [Outcome.Exit 130 14000000000] ∧
    appShort.StartAndServe Env.ideal (some 0) none = [Outcome.Exit 1 5000000000] :=
  ⟨(StartAndServe_clean_or_timeout main.app Env.ideal 0).1 14000000000 (by decide)
      (by decide),
    (StartAndServe_clean_or_timeout appShort Env.ideal 0).2.1 appShort_exit⟩

/-- C6, at the application of `main.go`: a second signal 5 s after the first, during the
drain, ends the process at 5 s with code 127. -/
theorem StartAndServe_second_signal_witness :
    (5000000000 < main.app.shutdownTimeout.toNat) ∧
    main.app.StartAndServe Env.ideal (some 0) (some 5000000000) =
      [Outcome.Exit 127 5000000000] :=
  ⟨by decide,
    (StartAndServe_second_signal main.app Env.ideal 0 5000000000 (by decide)
      (fun f c h => by rw [(main_exit f c h).1]; decide)).1⟩

end service
